import Mathlib

/-!
Verification development for the alti2 protocol codec and cipher
(src/main.rs): 8-bit additive checksum, ASCII-hex command framing,
device-identity record decoding, and the XTEA-style block cipher with its
key derivation from the Type0 identity payload.

Bytes are modelled as natural numbers below 256, 32-bit words as natural
numbers below 2^32, with wrap-around arithmetic written as explicit
reduction modulo the word size.  Rust indexing panics are modelled by
returning `none` from an `Option`-valued decoder.
-/

/-- 8-bit wrapping additive checksum: fold of `acc.wrapping_add(b)` over the
bytes, starting from zero (`checksum` in src/main.rs). -/
def checksum (bytes : List Nat) : Nat :=
  bytes.foldl (fun acc b => (acc + b) % 256) 0

/-- Fold of 8-bit wrapping addition over a byte list from a given initial
accumulator.  Written from the words of the specification (its
`checksum_fold`), to be compared with `checksum`. -/
def checksum_fold (init : Nat) (bytes : List Nat) : Nat :=
  bytes.foldl (fun acc b => (acc + b) % 256) init

/-- Software version triple decoded from the identity payload
(`SoftwareVersion` in src/main.rs). -/
structure SoftwareVersion where
  major : Nat
  minor : Nat
  revision : Nat
deriving DecidableEq, Repr

/-- Product type enumeration (`ProductType` in src/main.rs). -/
inductive ProductType where
  | Neptune
  | Wave
  | Tracker
  | DataLogger
  | N3
  | N3A
  | Atlas
  | Unknown
deriving DecidableEq, Repr

/-- `impl From<u8> for ProductType` in src/main.rs: codes 1 through 7 map to
the named variants, everything else to `Unknown`. -/
def ProductType.from_code (code : Nat) : ProductType :=
  match code with
  | 1 => ProductType.Neptune
  | 2 => ProductType.Wave
  | 3 => ProductType.Tracker
  | 4 => ProductType.DataLogger
  | 5 => ProductType.N3
  | 6 => ProductType.N3A
  | 7 => ProductType.Atlas
  | _ => ProductType.Unknown

/-- Decoded identity record (`DeviceInfo` in src/main.rs).  The serial number
is modelled as the list of Unicode code points of the decoded string. -/
structure DeviceInfo where
  sw_version : SoftwareVersion
  serial_number : List Nat
  hardware_revision : Nat
  product_type : ProductType
deriving DecidableEq, Repr

/-- The two error cases of `DeviceInfo::try_from`: the `ensure!` checksum
mismatch, and the `String::from_utf8` failure propagated by the question
mark operator. -/
inductive DecodeError where
  | checksumMismatch
  | encodingError
deriving DecidableEq, Repr

/-- Is a byte a valid UTF-8 continuation byte (0x80 to 0xBF)? -/
def utf8_is_cont (b : Nat) : Bool :=
  128 ≤ b && b ≤ 191

/-- Lower bound for the first continuation byte of a 3-byte sequence
(0xA0 when the leading byte is 0xE0, else 0x80). -/
def utf8_tail2_lo (b : Nat) : Nat :=
  if b = 224 then 160 else 128

/-- Upper bound for the first continuation byte of a 3-byte sequence
(0x9F when the leading byte is 0xED, excluding surrogates, else 0xBF). -/
def utf8_tail2_hi (b : Nat) : Nat :=
  if b = 237 then 159 else 191

/-- Lower bound for the first continuation byte of a 4-byte sequence
(0x90 when the leading byte is 0xF0, else 0x80). -/
def utf8_tail4_lo (b : Nat) : Nat :=
  if b = 240 then 144 else 128

/-- Upper bound for the first continuation byte of a 4-byte sequence
(0x8F when the leading byte is 0xF4, capping at U+10FFFF, else 0xBF). -/
def utf8_tail4_hi (b : Nat) : Nat :=
  if b = 244 then 143 else 191

/-- UTF-8 validation and decoding as performed by `String::from_utf8`:
returns the list of decoded code points, or `none` on invalid input
(overlong encodings, surrogates, out-of-range values and truncated
sequences all rejected, per the Rust standard library). -/
def utf8_decode : List Nat → Option (List Nat)
  | [] => some []
  | b0 :: rest =>
    if b0 ≤ 127 then
      (utf8_decode rest).map (fun cs => b0 :: cs)
    else if b0 ≤ 193 then
      none
    else if b0 ≤ 223 then
      match rest with
      | b1 :: rest2 =>
        if utf8_is_cont b1 then
          (utf8_decode rest2).map (fun cs => ((b0 % 32) * 64 + b1 % 64) :: cs)
        else none
      | [] => none
    else if b0 ≤ 239 then
      match rest with
      | b1 :: b2 :: rest3 =>
        if (utf8_tail2_lo b0 ≤ b1 && b1 ≤ utf8_tail2_hi b0) && utf8_is_cont b2 then
          (utf8_decode rest3).map
            (fun cs => ((b0 % 16) * 4096 + (b1 % 64) * 64 + b2 % 64) :: cs)
        else none
      | _ => none
    else if b0 ≤ 244 then
      match rest with
      | b1 :: b2 :: b3 :: rest4 =>
        if ((utf8_tail4_lo b0 ≤ b1 && b1 ≤ utf8_tail4_hi b0) && utf8_is_cont b2)
            && utf8_is_cont b3 then
          (utf8_decode rest4).map
            (fun cs => ((b0 % 8) * 262144 + (b1 % 64) * 4096 + (b2 % 64) * 64 + b3 % 64) :: cs)
        else none
      | _ => none
    else none

/-- The Unicode White_Space property on code points, as tested by the Rust
`char::is_whitespace` used by `str::trim`. -/
def is_rust_whitespace (c : Nat) : Bool :=
  (9 ≤ c && c ≤ 13) || c = 32 || c = 133 || c = 160 || c = 5760
    || (8192 ≤ c && c ≤ 8202) || c = 8232 || c = 8233 || c = 8239
    || c = 8287 || c = 12288

/-- `str::trim`: remove whitespace code points from both the start and the
end of the text. -/
def str_trim (cs : List Nat) : List Nat :=
  ((cs.dropWhile is_rust_whitespace).reverse.dropWhile is_rust_whitespace).reverse

/-- Trimming only at the end of the text.  Written from the words of the
specification (serial number right-trimmed of whitespace), to be compared
with the `str::trim` the code performs. -/
def str_trim_end (cs : List Nat) : List Nat :=
  (cs.reverse.dropWhile is_rust_whitespace).reverse

/-- `DeviceInfo::try_from` in src/main.rs.  `none` models a Rust panic
(out-of-bounds index or slice); `some (Except.error e)` the two early
returns; `some (Except.ok info)` a successful decode.  The stages follow
the evaluation order of the Rust code: the checksum `ensure!` over
`bytes[1..len-1]` against `bytes[len-1]` first, then `bytes[3]`,
`bytes[4]`, the `bytes[5..14]` serial slice and its UTF-8 decoding, then
`bytes[14]` and `bytes[15]`. -/
def DeviceInfo.try_from (bytes : List Nat) : Option (Except DecodeError DeviceInfo) :=
  if bytes.length < 2 then none
  else if checksum ((bytes.drop 1).take (bytes.length - 2)) ≠ bytes.getD (bytes.length - 1) 0 then
    some (Except.error DecodeError.checksumMismatch)
  else if bytes.length < 5 then none
  else if bytes.length < 14 then none
  else
    match utf8_decode ((bytes.drop 5).take 9) with
    | none => some (Except.error DecodeError.encodingError)
    | some serial_chars =>
      if bytes.length < 16 then none
      else some (Except.ok
        { sw_version :=
            { major := bytes.getD 3 0 / 16
              minor := bytes.getD 3 0 % 16
              revision := bytes.getD 4 0 }
          serial_number := str_trim serial_chars
          hardware_revision := bytes.getD 14 0
          product_type := ProductType.from_code (bytes.getD 15 0) })

deriving instance DecidableEq for Except

/-- The single command of the catalogue (`Command` in src/main.rs). -/
inductive Command where
  | GetInfo
deriving DecidableEq

/-- One uppercase hexadecimal digit as an ASCII code. -/
def hex_digit_upper (n : Nat) : Nat :=
  if n < 10 then 48 + n else 55 + n

/-- `hex::encode_upper` of a byte list: two uppercase hex ASCII characters
per byte, high nibble first. -/
def hex_encode_upper (bytes : List Nat) : List Nat :=
  (bytes.map (fun b => [hex_digit_upper (b / 16 % 16), hex_digit_upper (b % 16)])).flatten

/-- `Command::to_bytes` in src/main.rs: the length byte, the content bytes
and the checksum byte, each ASCII-hex encoded in uppercase. -/
def Command.to_bytes (c : Command) : List Nat :=
  match c with
  | Command.GetInfo =>
    let contents := [128]
    hex_encode_upper [contents.length % 256]
      ++ hex_encode_upper contents
      ++ hex_encode_upper [checksum contents]

/-- The `TYPE0_RESPONSE` test payload of src/main.rs, as byte values. -/
def type0_response : List Nat :=
  [30, 0, 5, 16, 3, 89, 49, 56, 51, 54, 52, 49, 32, 32, 2, 7,
   1, 0, 32, 1, 0, 0, 0, 0, 0, 0, 0, 32, 5, 0, 0, 56]

/-- Wrapping 32-bit addition (`Wrapping<u32>` plus in src/main.rs). -/
def wadd (a b : Nat) : Nat :=
  (a + b) % 4294967296

/-- Wrapping 32-bit subtraction (`Wrapping<u32>` minus in src/main.rs). -/
def wsub (a b : Nat) : Nat :=
  (a + (4294967296 - b % 4294967296)) % 4294967296

/-- Wrapping left shift by 4 of a 32-bit word. -/
def wshl4 (x : Nat) : Nat :=
  x * 16 % 4294967296

/-- Logical right shift by 5 of a 32-bit word. -/
def wshr5 (x : Nat) : Nat :=
  x / 32

/-- The nonlinear term `((x << 4) ^ (x >> 5)) + x` applied to the partner
word in each mixing step of the block transform. -/
def mix_partner (x : Nat) : Nat :=
  wadd (Nat.xor (wshl4 x) (wshr5 x)) x

/-- The 128-bit cipher key: the `k: [u32; 4]` field of `Cipher` in
src/main.rs, one field per array slot. -/
structure Cipher where
  k0 : Nat
  k1 : Nat
  k2 : Nat
  k3 : Nat
deriving DecidableEq, Repr

/-- Key schedule array indexing `self.k[i]`.  Every index in the code is
masked by `& 3`, so the out-of-range case is unreachable. -/
def Cipher.key (c : Cipher) (i : Nat) : Nat :=
  match i with
  | 0 => c.k0
  | 1 => c.k1
  | 2 => c.k2
  | 3 => c.k3
  | _ + 4 => 0

/-- The mutable state of the block transform loops: the two data words `u`
and `u1` and the accumulator `u2` of src/main.rs. -/
structure BState where
  u : Nat
  u1 : Nat
  u2 : Nat
deriving DecidableEq, Repr

/-- One iteration of the loop body of `Cipher::encrypt_single`:
`u += (((u1 << 4) ^ (u1 >> 5)) + u1) ^ (u2 + k[u2 & 3])`, then
`u2 += 0x9E3779B9`, then
`u1 += (((u << 4) ^ (u >> 5)) + u) ^ (u2 + k[(u2 >> 11) & 3])`. -/
def enc_round (c : Cipher) (s : BState) : BState :=
  let u := wadd s.u (Nat.xor (mix_partner s.u1) (wadd s.u2 (c.key (s.u2 % 4))))
  let u2 := wadd s.u2 2654435769
  let u1 := wadd s.u1 (Nat.xor (mix_partner u) (wadd u2 (c.key (u2 / 2048 % 4))))
  ⟨u, u1, u2⟩

/-- One iteration of the loop body of `Cipher::decrypt_single`:
`u1 -= (((u << 4) ^ (u >> 5)) + u) ^ (u2 + k[(u2 >> 11) & 3])`, then
`u2 -= 0x9E3779B9`, then
`u -= (((u1 << 4) ^ (u1 >> 5)) + u1) ^ (u2 + k[u2 & 3])`. -/
def dec_round (c : Cipher) (s : BState) : BState :=
  let u1 := wsub s.u1 (Nat.xor (mix_partner s.u) (wadd s.u2 (c.key (s.u2 / 2048 % 4))))
  let u2 := wsub s.u2 2654435769
  let u := wsub s.u (Nat.xor (mix_partner u1) (wadd u2 (c.key (u2 % 4))))
  ⟨u, u1, u2⟩

/-- `n` iterations of the encrypt loop body, first iteration innermost. -/
def enc_rounds (c : Cipher) : Nat → BState → BState
  | 0, s => s
  | n + 1, s => enc_rounds c n (enc_round c s)

/-- `n` iterations of the decrypt loop body, last iteration outermost. -/
def dec_rounds (c : Cipher) : Nat → BState → BState
  | 0, s => s
  | n + 1, s => dec_round c (dec_rounds c n s)

/-- `Cipher::encrypt_single` in src/main.rs: 16 rounds from `u2 = 0`,
returning the two transformed words. -/
def Cipher.encrypt_single (c : Cipher) (v0 v1 : Nat) : Nat × Nat :=
  let s := enc_rounds c 16 ⟨v0, v1, 0⟩
  (s.u, s.u1)

/-- `Cipher::decrypt_single` in src/main.rs: 16 rounds from
`u2 = 0xE3779B90`, returning the two recovered words. -/
def Cipher.decrypt_single (c : Cipher) (v0 v1 : Nat) : Nat × Nat :=
  let s := dec_rounds c 16 ⟨v0, v1, 3816266640⟩
  (s.u, s.u1)

/-- `u32::from_le_bytes` on four byte values. -/
def from_le_bytes (b0 b1 b2 b3 : Nat) : Nat :=
  b0 + b1 * 256 + b2 * 65536 + b3 * 16777216

/-- `u32::to_le_bytes` of a 32-bit word. -/
def to_le_bytes (w : Nat) : List Nat :=
  [w % 256, w / 256 % 256, w / 65536 % 256, w / 16777216 % 256]

/-- `Cipher::from_type0_bytes` in src/main.rs: the four key words assembled
little-endian from fixed payload offsets and the constants 78, 117 and
126.  `none` models the panic on a payload shorter than 27 bytes (the
largest offset read is 26). -/
def Cipher.from_type0_bytes (bytes : List Nat) : Option Cipher :=
  if bytes.length < 27 then none
  else some
    ⟨from_le_bytes 78 (bytes.getD 8 0) (bytes.getD 26 0) (bytes.getD 24 0),
     from_le_bytes (bytes.getD 6 0) (bytes.getD 25 0) (bytes.getD 23 0) (bytes.getD 13 0),
     from_le_bytes (bytes.getD 10 0) 117 (bytes.getD 7 0) (bytes.getD 22 0),
     from_le_bytes (bytes.getD 9 0) (bytes.getD 11 0) 126 (bytes.getD 21 0)⟩

/-- The zero padding performed at the top of `Cipher::encrypt` and
`Cipher::decrypt`: resize to the next multiple of 32 bytes, or leave the
buffer unchanged when the length is already a multiple of 32. -/
def pad32 (bytes : List Nat) : List Nat :=
  bytes ++ List.replicate (if bytes.length % 32 ≠ 0 then 32 - bytes.length % 32 else 0) 0

/-- The `chunks(4)` / `u32::from_le_bytes` conversion of the byte buffer to
words, a trailing short chunk zero-extended as by the
`b[..chunk.len()].copy_from_slice(chunk)` of src/main.rs. -/
def to_words : List Nat → List Nat
  | [] => []
  | [b0] => [from_le_bytes b0 0 0 0]
  | [b0, b1] => [from_le_bytes b0 b1 0 0]
  | [b0, b1, b2] => [from_le_bytes b0 b1 b2 0]
  | b0 :: b1 :: b2 :: b3 :: rest => from_le_bytes b0 b1 b2 b3 :: to_words rest

/-- Reassembly of transformed words into little-endian bytes, concatenated
in order. -/
def words_to_bytes : List Nat → List Nat
  | [] => []
  | w :: ws => to_le_bytes w ++ words_to_bytes ws

/-- The `chunks_exact(2)` / `encrypt_single` mapping over consecutive word
pairs; a leftover single word is dropped, as `chunks_exact` drops it. -/
def encrypt_pairs (c : Cipher) : List Nat → List Nat
  | w0 :: w1 :: rest =>
    (c.encrypt_single w0 w1).1 :: (c.encrypt_single w0 w1).2 :: encrypt_pairs c rest
  | _ => []

/-- The `chunks_exact(2)` / `decrypt_single` mapping over consecutive word
pairs; a leftover single word is dropped, as `chunks_exact` drops it. -/
def decrypt_pairs (c : Cipher) : List Nat → List Nat
  | w0 :: w1 :: rest =>
    (c.decrypt_single w0 w1).1 :: (c.decrypt_single w0 w1).2 :: decrypt_pairs c rest
  | _ => []

/-- `Cipher::encrypt` in src/main.rs: pad, split into little-endian words,
transform consecutive pairs, reassemble bytes. -/
def Cipher.encrypt (c : Cipher) (bytes : List Nat) : List Nat :=
  words_to_bytes (encrypt_pairs c (to_words (pad32 bytes)))

/-- `Cipher::decrypt` in src/main.rs: pad, split into little-endian words,
inverse-transform consecutive pairs, reassemble bytes. -/
def Cipher.decrypt (c : Cipher) (bytes : List Nat) : List Nat :=
  words_to_bytes (decrypt_pairs c (to_words (pad32 bytes)))

/-- One encrypt round as the claim words it, with the key material entering
as `accumulator XOR key[index]` instead of the addition the code performs.
Written from the words of the claim, to be compared with `enc_round`. -/
def enc_round_claimed (c : Cipher) (s : BState) : BState :=
  let u := wadd s.u (Nat.xor (mix_partner s.u1) (Nat.xor s.u2 (c.key (s.u2 % 4))))
  let u2 := wadd s.u2 2654435769
  let u1 := wadd s.u1 (Nat.xor (mix_partner u) (Nat.xor u2 (c.key (u2 / 2048 % 4))))
  ⟨u, u1, u2⟩

/-- 16 rounds of the claimed transform from a zero accumulator. -/
def claimed_rounds (c : Cipher) : Nat → BState → BState
  | 0, s => s
  | n + 1, s => claimed_rounds c n (enc_round_claimed c s)

/-- The block encrypt transform as the claim words it (key material XORed
with the accumulator). -/
def encrypt_single_claimed (c : Cipher) (v0 v1 : Nat) : Nat × Nat :=
  let s := claimed_rounds c 16 ⟨v0, v1, 0⟩
  (s.u, s.u1)

/-- One mixing step as the amended claim words it: the nonlinear function
of the partner word XORed with `(accumulator + key[index] mod 2^32)`. -/
def spec_mix (partner acc key : Nat) : Nat :=
  Nat.xor (wadd (Nat.xor (wshl4 partner) (wshr5 partner)) partner) (wadd acc key)

/-- One round as the amended claim words it: mix `v0`, advance the
accumulator by 0x9E3779B9, mix `v1`; index `accumulator & 3` for the first
half, `(accumulator >> 11) & 3` for the second.  Written from the amended
claim, to be compared with `enc_round`. -/
def spec_round (c : Cipher) (st : Nat × Nat × Nat) : Nat × Nat × Nat :=
  let v0 := wadd st.1 (spec_mix st.2.1 st.2.2 (c.key (st.2.2 % 4)))
  let acc := wadd st.2.2 2654435769
  let v1 := wadd st.2.1 (spec_mix v0 acc (c.key (acc / 2048 % 4)))
  (v0, v1, acc)

/-- 16 rounds of the amended-claim transform from a zero accumulator. -/
def spec_rounds (c : Cipher) : Nat → (Nat × Nat × Nat) → Nat × Nat × Nat
  | 0, st => st
  | n + 1, st => spec_rounds c n (spec_round c st)

/-- The block encrypt transform as the amended claim words it. -/
def encrypt_single_spec (c : Cipher) (v0 v1 : Nat) : Nat × Nat :=
  ((spec_rounds c 16 (v0, v1, 0)).1, (spec_rounds c 16 (v0, v1, 0)).2.1)

/-- Invariant of the block transform state: all three words are reduced
32-bit values. -/
def BState.Reduced (s : BState) : Prop :=
  s.u < 4294967296 ∧ s.u1 < 4294967296 ∧ s.u2 < 4294967296

example : utf8_decode [89, 49, 56, 51, 54, 52, 49, 32, 32]
    = some [89, 49, 56, 51, 54, 52, 49, 32, 32] := by decide

example : utf8_decode [195, 169] = some [233] := by decide

example : utf8_decode [237, 160, 128] = none := by decide

example : str_trim [32, 89, 49, 32, 32] = [89, 49] := by decide

example : DeviceInfo.try_from type0_response
    = some (Except.ok
        { sw_version := { major := 1, minor := 0, revision := 3 }
          serial_number := [89, 49, 56, 51, 54, 52, 49]
          hardware_revision := 2
          product_type := ProductType.Atlas }) := by decide

example : Command.to_bytes Command.GetInfo = [48, 49, 56, 48, 56, 48] := by decide

theorem wadd_lt (a b : Nat) : wadd a b < 4294967296 := by
  unfold wadd
  omega

theorem wsub_wadd (a b : Nat) (h : a < 4294967296) : wsub (wadd a b) b = a := by
  unfold wadd wsub
  omega

theorem enc_round_reduced (c : Cipher) (s : BState) : (enc_round c s).Reduced := by
  refine ⟨?_, ?_, ?_⟩ <;> simp only [enc_round] <;> exact wadd_lt _ _

theorem dec_round_enc_round (c : Cipher) (s : BState) (h : s.Reduced) :
    dec_round c (enc_round c s) = s := by
  obtain ⟨u, u1, u2⟩ := s
  obtain ⟨h0, h1, h2⟩ := h
  simp only [enc_round, dec_round]
  rw [wsub_wadd _ _ h1, wsub_wadd _ _ h2, wsub_wadd _ _ h0]

theorem enc_rounds_reduced (c : Cipher) (n : Nat) (s : BState) (h : s.Reduced) :
    (enc_rounds c n s).Reduced := by
  induction n generalizing s with
  | zero => exact h
  | succ n ih => exact ih (enc_round c s) (enc_round_reduced c s)

theorem dec_rounds_enc_rounds (c : Cipher) (n : Nat) (s : BState) (h : s.Reduced) :
    dec_rounds c n (enc_rounds c n s) = s := by
  induction n generalizing s with
  | zero => rfl
  | succ n ih =>
    show dec_round c (dec_rounds c n (enc_rounds c n (enc_round c s))) = s
    rw [ih (enc_round c s) (enc_round_reduced c s), dec_round_enc_round c s h]

theorem enc_rounds_u2 (c : Cipher) (n : Nat) (s : BState) (h : s.u2 < 4294967296) :
    (enc_rounds c n s).u2 = (s.u2 + n * 2654435769) % 4294967296 := by
  induction n generalizing s with
  | zero => simpa [enc_rounds] using (Nat.mod_eq_of_lt h).symm
  | succ n ih =>
    show (enc_rounds c n (enc_round c s)).u2 = _
    rw [ih (enc_round c s) (enc_round_reduced c s).2.2]
    show ((wadd s.u2 2654435769) + n * 2654435769) % 4294967296 = _
    unfold wadd
    rw [Nat.mod_add_mod]
    congr 1
    ring

theorem decrypt_single_encrypt_single (c : Cipher) (v0 v1 : Nat)
    (h0 : v0 < 4294967296) (h1 : v1 < 4294967296) :
    c.decrypt_single (c.encrypt_single v0 v1).1 (c.encrypt_single v0 v1).2 = (v0, v1) := by
  have hs : (⟨v0, v1, 0⟩ : BState).Reduced := ⟨h0, h1, by norm_num⟩
  have hu2 : (enc_rounds c 16 ⟨v0, v1, 0⟩).u2 = 3816266640 := by
    rw [enc_rounds_u2 c 16 _ (by norm_num)]
    show (0 + 16 * 2654435769) % 4294967296 = 3816266640
    norm_num
  have key : dec_rounds c 16 ⟨(enc_rounds c 16 ⟨v0, v1, 0⟩).u,
      (enc_rounds c 16 ⟨v0, v1, 0⟩).u1, (enc_rounds c 16 ⟨v0, v1, 0⟩).u2⟩ = ⟨v0, v1, 0⟩ :=
    dec_rounds_enc_rounds c 16 _ hs
  rw [hu2] at key
  unfold Cipher.decrypt_single Cipher.encrypt_single
  rw [key]

theorem encrypt_single_reduced (c : Cipher) (v0 v1 : Nat) :
    (c.encrypt_single v0 v1).1 < 4294967296 ∧ (c.encrypt_single v0 v1).2 < 4294967296 := by
  have h : (enc_rounds c 16 ⟨v0, v1, 0⟩).Reduced := by
    show (enc_rounds c 15 (enc_round c ⟨v0, v1, 0⟩)).Reduced
    exact enc_rounds_reduced c 15 _ (enc_round_reduced c _)
  exact ⟨h.1, h.2.1⟩

theorem encrypt_pairs_lt (c : Cipher) :
    ∀ ws : List Nat, ∀ w ∈ encrypt_pairs c ws, w < 4294967296
  | [] => by simp [encrypt_pairs]
  | [w] => by simp [encrypt_pairs]
  | w0 :: w1 :: rest => by
    intro w hw
    simp only [encrypt_pairs, List.mem_cons] at hw
    rcases hw with h | h | h
    · exact h ▸ (encrypt_single_reduced c w0 w1).1
    · exact h ▸ (encrypt_single_reduced c w0 w1).2
    · exact encrypt_pairs_lt c rest w h

theorem decrypt_pairs_encrypt_pairs (c : Cipher) :
    ∀ ws : List Nat, (∀ w ∈ ws, w < 4294967296) → ws.length % 2 = 0 →
      decrypt_pairs c (encrypt_pairs c ws) = ws
  | [], _, _ => rfl
  | [w], _, hlen => by simp at hlen
  | w0 :: w1 :: rest, h, hlen => by
    have he := decrypt_single_encrypt_single c w0 w1 (h w0 (by simp)) (h w1 (by simp))
    show decrypt_pairs c
        ((c.encrypt_single w0 w1).1 :: (c.encrypt_single w0 w1).2 :: encrypt_pairs c rest)
      = w0 :: w1 :: rest
    show (c.decrypt_single (c.encrypt_single w0 w1).1 (c.encrypt_single w0 w1).2).1
        :: (c.decrypt_single (c.encrypt_single w0 w1).1 (c.encrypt_single w0 w1).2).2
        :: decrypt_pairs c (encrypt_pairs c rest) = w0 :: w1 :: rest
    rw [he, decrypt_pairs_encrypt_pairs c rest (fun w hw => h w (by simp [hw]))
      (by simp only [List.length_cons] at hlen ⊢; omega)]

theorem words_to_bytes_length : ∀ ws : List Nat, (words_to_bytes ws).length = 4 * ws.length
  | [] => rfl
  | w :: ws => by
    simp only [words_to_bytes, List.length_append, words_to_bytes_length ws, to_le_bytes,
      List.length_cons, List.length_nil]
    omega

theorem encrypt_pairs_length (c : Cipher) :
    ∀ ws : List Nat, ws.length % 2 = 0 → (encrypt_pairs c ws).length = ws.length
  | [], _ => rfl
  | [w], hlen => by simp at hlen
  | w0 :: w1 :: rest, hlen => by
    show ((c.encrypt_single w0 w1).1 :: (c.encrypt_single w0 w1).2
        :: encrypt_pairs c rest).length = _
    simp only [List.length_cons]
    rw [encrypt_pairs_length c rest (by simp only [List.length_cons] at hlen ⊢; omega)]

theorem to_words_length : ∀ l : List Nat, l.length % 4 = 0 → (to_words l).length = l.length / 4
  | [], _ => rfl
  | [b0], h => by simp at h
  | [b0, b1], h => by simp at h
  | [b0, b1, b2], h => by simp at h
  | b0 :: b1 :: b2 :: b3 :: rest, h => by
    show (from_le_bytes b0 b1 b2 b3 :: to_words rest).length = _
    simp only [List.length_cons]
    rw [to_words_length rest (by simp only [List.length_cons] at h ⊢; omega)]
    omega

theorem to_words_lt : ∀ l : List Nat, (∀ b ∈ l, b < 256) → ∀ w ∈ to_words l, w < 4294967296
  | [], _ => by intro w hw; simp [to_words] at hw
  | [b0], h => by
    have := h b0 (by simp)
    simp only [to_words, List.mem_singleton, from_le_bytes]
    omega
  | [b0, b1], h => by
    have h0 := h b0 (by simp)
    have h1 := h b1 (by simp)
    simp only [to_words, List.mem_singleton, from_le_bytes]
    omega
  | [b0, b1, b2], h => by
    have h0 := h b0 (by simp)
    have h1 := h b1 (by simp)
    have h2 := h b2 (by simp)
    simp only [to_words, List.mem_singleton, from_le_bytes]
    omega
  | b0 :: b1 :: b2 :: b3 :: rest, h => by
    intro w hw
    have h0 := h b0 (by simp)
    have h1 := h b1 (by simp)
    have h2 := h b2 (by simp)
    have h3 := h b3 (by simp)
    simp only [to_words, List.mem_cons] at hw
    rcases hw with hw | hw
    · subst hw
      simp only [from_le_bytes]
      omega
    · exact to_words_lt rest (fun b hb => h b (by simp [hb])) w hw

theorem words_to_bytes_to_words :
    ∀ l : List Nat, l.length % 4 = 0 → (∀ b ∈ l, b < 256) → words_to_bytes (to_words l) = l
  | [], _, _ => rfl
  | [b0], h, _ => by simp at h
  | [b0, b1], h, _ => by simp at h
  | [b0, b1, b2], h, _ => by simp at h
  | b0 :: b1 :: b2 :: b3 :: rest, h, hb => by
    have h0 := hb b0 (by simp)
    have h1 := hb b1 (by simp)
    have h2 := hb b2 (by simp)
    have h3 := hb b3 (by simp)
    show to_le_bytes (from_le_bytes b0 b1 b2 b3) ++ words_to_bytes (to_words rest)
      = b0 :: b1 :: b2 :: b3 :: rest
    rw [words_to_bytes_to_words rest (by simp only [List.length_cons] at h ⊢; omega)
      (fun b hbm => hb b (by simp [hbm]))]
    simp only [to_le_bytes, from_le_bytes, List.cons_append, List.nil_append,
      List.cons.injEq, and_true]
    refine ⟨?_, ?_, ?_, ?_⟩ <;> omega

theorem to_words_words_to_bytes :
    ∀ ws : List Nat, (∀ w ∈ ws, w < 4294967296) → to_words (words_to_bytes ws) = ws
  | [], _ => rfl
  | w :: ws, h => by
    have hw := h w (by simp)
    show to_words (w % 256 :: w / 256 % 256 :: w / 65536 % 256 :: w / 16777216 % 256
      :: words_to_bytes ws) = w :: ws
    show from_le_bytes (w % 256) (w / 256 % 256) (w / 65536 % 256) (w / 16777216 % 256)
      :: to_words (words_to_bytes ws) = w :: ws
    rw [to_words_words_to_bytes ws (fun x hx => h x (by simp [hx]))]
    simp only [from_le_bytes, List.cons.injEq, and_true]
    omega

theorem pad32_length_mod (l : List Nat) : (pad32 l).length % 32 = 0 := by
  simp only [pad32, List.length_append, List.length_replicate]
  split <;> omega

theorem pad32_lt (l : List Nat) (h : ∀ b ∈ l, b < 256) : ∀ b ∈ pad32 l, b < 256 := by
  intro b hb
  simp only [pad32, List.mem_append] at hb
  rcases hb with hb | hb
  · exact h b hb
  · rw [List.eq_of_mem_replicate hb]
    omega

theorem pad32_of_mod (l : List Nat) (h : l.length % 32 = 0) : pad32 l = l := by
  simp [pad32, h]

/-- Byte-stream roundtrip at the padded level: decrypting an encryption
recovers exactly the zero-padded plaintext. -/
theorem decrypt_encrypt (c : Cipher) (l : List Nat) (h : ∀ b ∈ l, b < 256) :
    c.decrypt (c.encrypt l) = pad32 l := by
  have hPlen : (pad32 l).length % 32 = 0 := pad32_length_mod l
  have hPbytes : ∀ b ∈ pad32 l, b < 256 := pad32_lt l h
  have hP4 : (pad32 l).length % 4 = 0 := by omega
  have hW : ∀ w ∈ to_words (pad32 l), w < 4294967296 := to_words_lt (pad32 l) hPbytes
  have hWlen : (to_words (pad32 l)).length % 2 = 0 := by
    rw [to_words_length (pad32 l) hP4]
    omega
  have hElen : (c.encrypt l).length % 32 = 0 := by
    show (words_to_bytes (encrypt_pairs c (to_words (pad32 l)))).length % 32 = 0
    rw [words_to_bytes_length, encrypt_pairs_length c _ hWlen, to_words_length (pad32 l) hP4]
    omega
  show c.decrypt (c.encrypt l) = pad32 l
  unfold Cipher.decrypt
  rw [pad32_of_mod _ hElen]
  show words_to_bytes (decrypt_pairs c (to_words
      (words_to_bytes (encrypt_pairs c (to_words (pad32 l)))))) = pad32 l
  rw [to_words_words_to_bytes _ (encrypt_pairs_lt c _),
    decrypt_pairs_encrypt_pairs c _ hW hWlen,
    words_to_bytes_to_words (pad32 l) hP4 hPbytes]

theorem spec_round_eq (c : Cipher) (s : BState) :
    spec_round c (s.u, s.u1, s.u2) = ((enc_round c s).u, (enc_round c s).u1, (enc_round c s).u2) :=
  rfl

theorem spec_rounds_eq (c : Cipher) : ∀ (n : Nat) (s : BState),
    spec_rounds c n (s.u, s.u1, s.u2)
      = ((enc_rounds c n s).u, (enc_rounds c n s).u1, (enc_rounds c n s).u2)
  | 0, s => rfl
  | n + 1, s => by
    show spec_rounds c n (spec_round c (s.u, s.u1, s.u2)) = _
    rw [spec_round_eq c s]
    exact spec_rounds_eq c n (enc_round c s)

/-- Claim C1: for every key derivable by Cipher::from_type0_bytes and every
byte sequence b, the first len(b) bytes of decrypt(encrypt(b)) equal b, and
when len(b) is a multiple of 32, decrypt(encrypt(b)) equals b exactly. -/
theorem c1_cipher_roundtrip (p : List Nat) (c : Cipher) (l : List Nat)
    (_hc : Cipher.from_type0_bytes p = some c) (h : ∀ b ∈ l, b < 256) :
    (c.decrypt (c.encrypt l)).take l.length = l
      ∧ (l.length % 32 = 0 → c.decrypt (c.encrypt l) = l) := by
  have hre := decrypt_encrypt c l h
  constructor
  · rw [hre]
    show (l ++ _).take l.length = l
    exact List.take_left l _
  · intro h32
    rw [hre, pad32_of_mod l h32]

theorem c1_cipher_roundtrip_witness :
    ((Cipher.mk 13134 536870961 3700020 8270134).decrypt
      ((Cipher.mk 13134 536870961 3700020 8270134).encrypt [1, 170, 170])).take 3
      = [1, 170, 170] :=
  (c1_cipher_roundtrip type0_response (Cipher.mk 13134 536870961 3700020 8270134)
    [1, 170, 170] (by decide) (by decide)).1

/-- Claim C2 as stated is false: with the key derived from the Type0 test
payload, the round function that XORs the accumulator with the key word
(as the claim words it) disagrees with encrypt_single on the zero block. -/
theorem c2_claimed_formula_counterexample :
    encrypt_single_claimed (Cipher.mk 13134 536870961 3700020 8270134) 0 0
      ≠ (Cipher.mk 13134 536870961 3700020 8270134).encrypt_single 0 0 := by
  decide

/-- Claim C2 amended: the block encrypt transform starts the
accumulator at 0, runs 16 rounds of mixing v0, advancing the accumulator
by 0x9E3779B9, then mixing v1, where each mixing step adds (mod 2^32) the
XOR of (((x << 4) XOR (x >> 5)) + x) of the partner word with
(accumulator + key[index] mod 2^32), index = accumulator & 3 for the first
half and (accumulator >> 11) & 3 for the second half. -/
theorem c2_encrypt_single_matches_spec (c : Cipher) (v0 v1 : Nat) :
    c.encrypt_single v0 v1 = encrypt_single_spec c v0 v1 := by
  unfold Cipher.encrypt_single encrypt_single_spec
  rw [show ((v0, v1, 0) : Nat × Nat × Nat)
      = ((⟨v0, v1, 0⟩ : BState).u, (⟨v0, v1, 0⟩ : BState).u1, (⟨v0, v1, 0⟩ : BState).u2)
    from rfl]
  rw [spec_rounds_eq c 16 ⟨v0, v1, 0⟩]

/-- Claim C3 as stated is false: the fixed 32-byte payload decodes
successfully, but with product type Atlas (code 7 at offset 15), not
Tracker. -/
theorem c3_product_type_counterexample :
    DeviceInfo.try_from type0_response = some (Except.ok
      { sw_version := { major := 1, minor := 0, revision := 3 }
        serial_number := [89, 49, 56, 51, 54, 52, 49]
        hardware_revision := 2
        product_type := ProductType.Atlas })
    ∧ ProductType.Atlas ≠ ProductType.Tracker := by
  decide

/-- Claim C3 amended: decoding the fixed 32-byte payload succeeds (checksum
valid, no error) and yields major=1, minor=0, revision=3, the serial
number text Y183641, hardware revision 2, and product type Atlas (code 7
at offset 15). -/
theorem c3_type0_decode :
    DeviceInfo.try_from type0_response = some (Except.ok
      { sw_version := { major := 1, minor := 0, revision := 3 }
        serial_number := [89, 49, 56, 51, 54, 52, 49]
        hardware_revision := 2
        product_type := ProductType.Atlas }) := by
  decide

/-- Claim C5: encoding the get-identity command yields exactly the six
ASCII bytes of the string 018080. -/
theorem c5_get_info_encoding :
    Command.to_bytes Command.GetInfo = [48, 49, 56, 48, 56, 48] := by
  decide

/-- Claim C6: the checksum of a concatenation is the wrapping-addition fold
over the second part started from the checksum of the first part, and the
checksum itself is that fold started from zero. -/
theorem c6_checksum_append :
    (∀ a b : List Nat, checksum (a ++ b) = checksum_fold (checksum a) b)
      ∧ (∀ l : List Nat, checksum l = checksum_fold 0 l) := by
  constructor
  · intro a b
    unfold checksum checksum_fold
    exact List.foldl_append _ _ a b
  · intro l
    rfl

theorem try_from_checksum_error (bytes : List Nat) (h2 : 2 ≤ bytes.length)
    (hck : checksum ((bytes.drop 1).take (bytes.length - 2)) ≠ bytes.getD (bytes.length - 1) 0) :
    DeviceInfo.try_from bytes = some (Except.error DecodeError.checksumMismatch) := by
  unfold DeviceInfo.try_from
  rw [if_neg (by omega), if_pos hck]

theorem checksum_fold_eq_sum :
    ∀ (l : List Nat) (acc : Nat), acc < 256 →
      l.foldl (fun a b => (a + b) % 256) acc = (acc + l.sum) % 256
  | [], acc, h => by
    simpa using (Nat.mod_eq_of_lt h).symm
  | b :: l, acc, h => by
    show l.foldl (fun a b => (a + b) % 256) ((acc + b) % 256) = _
    rw [checksum_fold_eq_sum l ((acc + b) % 256) (by omega), List.sum_cons]
    omega

theorem checksum_eq_sum (l : List Nat) : checksum l = l.sum % 256 := by
  have h := checksum_fold_eq_sum l 0 (by omega)
  simpa [checksum] using h

theorem take_set_of_lt (a : Nat) :
    ∀ (l : List Nat) (i n : Nat), i < n → (l.set i a).take n = (l.take n).set i a
  | [], i, n, h => by simp
  | b :: l, 0, n, h => by
    cases n with
    | zero => omega
    | succ n => simp [List.set, List.take]
  | b :: l, i + 1, n, h => by
    cases n with
    | zero => omega
    | succ n =>
      simp only [List.set, List.take_succ_cons, List.cons.injEq, true_and]
      exact take_set_of_lt a l i n (by omega)

theorem sum_set_add :
    ∀ (l : List Nat) (j v : Nat), j < l.length → (l.set j v).sum + l.getD j 0 = l.sum + v
  | [], j, v, h => by simp at h
  | a :: l, 0, v, h => by
    simp only [List.set, List.sum_cons, List.getD_cons_zero]
    omega
  | a :: l, j + 1, v, h => by
    simp only [List.set, List.sum_cons, List.getD_cons_succ]
    have ih := sum_set_add l j v (by simp only [List.length_cons] at h; omega)
    omega

/-- Claim C4: changing any single byte of the fixed payload at an offset in
the checksummed region (1 through 30) to any different byte value, leaving
the trailing checksum byte at offset 31 unchanged, makes decoding fail
with the checksum mismatch error. -/
theorem c4_corrupt_byte_checksum_error :
    ∀ i : Nat, i < 31 → 1 ≤ i → ∀ v : Nat, v < 256 → v ≠ type0_response.getD i 0 →
      DeviceInfo.try_from (type0_response.set i v)
        = some (Except.error DecodeError.checksumMismatch) := by
  intro i hi31 hi1 v hv hne
  have hlen : (type0_response.set i v).length = 32 := by
    rw [List.length_set]
    rfl
  apply try_from_checksum_error _ (by omega)
  rw [hlen]
  show checksum (((type0_response.set i v).drop 1).take 30)
    ≠ (type0_response.set i v).getD 31 0
  have hgetD : (type0_response.set i v).getD 31 0 = 56 := by
    rw [List.getD_eq_getElem _ _ (by omega), List.getElem_set_ne (by omega)]
    rfl
  rw [hgetD, List.drop_set, if_neg (by omega), take_set_of_lt _ _ _ _ (by omega)]
  have hMset : ((type0_response.drop 1).take 30)
      = [0, 5, 16, 3, 89, 49, 56, 51, 54, 52, 49, 32, 32, 2, 7, 1,
         0, 32, 1, 0, 0, 0, 0, 0, 0, 0, 32, 5, 0, 0] := by decide
  rw [hMset]
  have hrel : ∀ j, j < 31 → 1 ≤ j → type0_response.getD j 0
      = ([0, 5, 16, 3, 89, 49, 56, 51, 54, 52, 49, 32, 32, 2, 7, 1,
          0, 32, 1, 0, 0, 0, 0, 0, 0, 0, 32, 5, 0, 0] : List Nat).getD (j - 1) 0 := by
    decide
  rw [hrel i hi31 hi1] at hne
  have hj : i - 1 < ([0, 5, 16, 3, 89, 49, 56, 51, 54, 52, 49, 32, 32, 2, 7, 1,
      0, 32, 1, 0, 0, 0, 0, 0, 0, 0, 32, 5, 0, 0] : List Nat).length := by
    simp only [List.length_cons, List.length_nil]
    omega
  have hsum := sum_set_add _ (i - 1) v hj
  have hMj : ([0, 5, 16, 3, 89, 49, 56, 51, 54, 52, 49, 32, 32, 2, 7, 1,
      0, 32, 1, 0, 0, 0, 0, 0, 0, 0, 32, 5, 0, 0] : List Nat).getD (i - 1) 0 < 256 := by
    rw [List.getD_eq_getElem _ _ hj]
    exact (by decide : ∀ b ∈ ([0, 5, 16, 3, 89, 49, 56, 51, 54, 52, 49, 32, 32, 2, 7, 1,
      0, 32, 1, 0, 0, 0, 0, 0, 0, 0, 32, 5, 0, 0] : List Nat), b < 256) _ (List.getElem_mem _)
  rw [checksum_eq_sum]
  have hMsum : ([0, 5, 16, 3, 89, 49, 56, 51, 54, 52, 49, 32, 32, 2, 7, 1,
      0, 32, 1, 0, 0, 0, 0, 0, 0, 0, 32, 5, 0, 0] : List Nat).sum = 568 := by decide
  rw [hMsum] at hsum
  omega

theorem c4_corrupt_byte_checksum_error_witness :
    DeviceInfo.try_from (type0_response.set 1 5)
      = some (Except.error DecodeError.checksumMismatch) :=
  c4_corrupt_byte_checksum_error 1 (by norm_num) (by norm_num) 5 (by norm_num) (by decide)

set_option maxRecDepth 8192 in
/-- Claim C7: product codes outside 1..7 map to Unknown without error (and
decoding an otherwise valid payload still succeeds, with the product type
given by the code at offset 15), while codes 1 through 7 map to Neptune,
Wave, Tracker, DataLogger, N3, N3A and Atlas respectively. -/
theorem c7_unknown_product_codes :
    (∀ code : Nat, code < 256 → ¬(1 ≤ code ∧ code ≤ 7) →
        ProductType.from_code code = ProductType.Unknown)
    ∧ (ProductType.from_code 1 = ProductType.Neptune
        ∧ ProductType.from_code 2 = ProductType.Wave
        ∧ ProductType.from_code 3 = ProductType.Tracker
        ∧ ProductType.from_code 4 = ProductType.DataLogger
        ∧ ProductType.from_code 5 = ProductType.N3
        ∧ ProductType.from_code 6 = ProductType.N3A
        ∧ ProductType.from_code 7 = ProductType.Atlas)
    ∧ (∀ bytes : List Nat, 16 ≤ bytes.length →
        checksum ((bytes.drop 1).take (bytes.length - 2)) = bytes.getD (bytes.length - 1) 0 →
        ∀ cs : List Nat, utf8_decode ((bytes.drop 5).take 9) = some cs →
        ∃ info : DeviceInfo, DeviceInfo.try_from bytes = some (Except.ok info)
          ∧ info.product_type = ProductType.from_code (bytes.getD 15 0)) := by
  refine ⟨by decide, ⟨rfl, rfl, rfl, rfl, rfl, rfl, rfl⟩, ?_⟩
  intro bytes hlen hck cs hcs
  refine ⟨DeviceInfo.mk (SoftwareVersion.mk (bytes.getD 3 0 / 16) (bytes.getD 3 0 % 16)
    (bytes.getD 4 0)) (str_trim cs) (bytes.getD 14 0)
    (ProductType.from_code (bytes.getD 15 0)), ?_, rfl⟩
  unfold DeviceInfo.try_from
  rw [if_neg (by omega), if_neg (not_not_intro hck), if_neg (by omega), if_neg (by omega), hcs]
  show (if bytes.length < 16 then none
    else some (Except.ok (DeviceInfo.mk (SoftwareVersion.mk (bytes.getD 3 0 / 16)
      (bytes.getD 3 0 % 16) (bytes.getD 4 0)) (str_trim cs) (bytes.getD 14 0)
      (ProductType.from_code (bytes.getD 15 0))))) = _
  rw [if_neg (by omega)]

theorem c7_unknown_product_codes_witness :
    ∃ info : DeviceInfo,
      DeviceInfo.try_from ((type0_response.set 15 99).set 31 148) = some (Except.ok info)
        ∧ info.product_type = ProductType.Unknown := by
  obtain ⟨info, h1, h2⟩ := c7_unknown_product_codes.2.2 ((type0_response.set 15 99).set 31 148)
    (by decide) (by decide) [89, 49, 56, 51, 54, 52, 49, 32, 32] (by decide)
  refine ⟨info, h1, ?_⟩
  rw [h2]
  decide

/-- Claim C8: key derivation depends only on payload bytes at offsets 6..13
and 21..26, and the constant bytes 78, 117 and 126 each sit at a fixed
little-endian position of a distinct key word. -/
theorem c8_key_derivation :
    (∀ (p q : List Nat) (cp cq : Cipher), Cipher.from_type0_bytes p = some cp →
        Cipher.from_type0_bytes q = some cq →
        (∀ i : Nat, (6 ≤ i ∧ i ≤ 13) ∨ (21 ≤ i ∧ i ≤ 26) → p.getD i 0 = q.getD i 0) →
        cp = cq)
    ∧ (∀ (p : List Nat) (c : Cipher), Cipher.from_type0_bytes p = some c →
        (∀ b ∈ p, b < 256) →
        c.k0 % 256 = 78 ∧ c.k2 / 256 % 256 = 117 ∧ c.k3 / 65536 % 256 = 126) := by
  constructor
  · intro p q cp cq hp hq hagree
    unfold Cipher.from_type0_bytes at hp hq
    split at hp
    · exact Option.noConfusion hp
    split at hq
    · exact Option.noConfusion hq
    injection hp with hp
    injection hq with hq
    subst hp
    subst hq
    simp only [Cipher.mk.injEq]
    refine ⟨?_, ?_, ?_, ?_⟩
    · rw [hagree 8 (by omega), hagree 26 (by omega), hagree 24 (by omega)]
    · rw [hagree 6 (by omega), hagree 25 (by omega), hagree 23 (by omega),
        hagree 13 (by omega)]
    · rw [hagree 10 (by omega), hagree 7 (by omega), hagree 22 (by omega)]
    · rw [hagree 9 (by omega), hagree 11 (by omega), hagree 21 (by omega)]
  · intro p c hc hb
    unfold Cipher.from_type0_bytes at hc
    split at hc
    · exact Option.noConfusion hc
    next hlen =>
      injection hc with hc
      subst hc
      have h9 : p.getD 9 0 < 256 := by
        rw [List.getD_eq_getElem _ _ (by omega)]
        exact hb _ (List.getElem_mem _)
      have h10 : p.getD 10 0 < 256 := by
        rw [List.getD_eq_getElem _ _ (by omega)]
        exact hb _ (List.getElem_mem _)
      have h11 : p.getD 11 0 < 256 := by
        rw [List.getD_eq_getElem _ _ (by omega)]
        exact hb _ (List.getElem_mem _)
      refine ⟨?_, ?_, ?_⟩
      · show from_le_bytes 78 (p.getD 8 0) (p.getD 26 0) (p.getD 24 0) % 256 = 78
        unfold from_le_bytes
        omega
      · show from_le_bytes (p.getD 10 0) 117 (p.getD 7 0) (p.getD 22 0) / 256 % 256 = 117
        unfold from_le_bytes
        omega
      · show from_le_bytes (p.getD 9 0) (p.getD 11 0) 126 (p.getD 21 0) / 65536 % 256 = 126
        unfold from_le_bytes
        omega

theorem c8_key_derivation_witness :
    Cipher.mk 13134 536870961 3700020 8270134 = Cipher.mk 13134 536870961 3700020 8270134
    ∧ (Cipher.mk 13134 536870961 3700020 8270134).k0 % 256 = 78
    ∧ (Cipher.mk 13134 536870961 3700020 8270134).k2 / 256 % 256 = 117
    ∧ (Cipher.mk 13134 536870961 3700020 8270134).k3 / 65536 % 256 = 126 := by
  refine ⟨?_, ?_⟩
  · exact c8_key_derivation.1 type0_response (type0_response.set 0 255)
      (Cipher.mk 13134 536870961 3700020 8270134) (Cipher.mk 13134 536870961 3700020 8270134)
      (by decide) (by decide)
      (fun i hi => by rcases hi with ⟨h1, h2⟩ | ⟨h1, h2⟩ <;> interval_cases i <;> decide)
  · exact c8_key_derivation.2 type0_response (Cipher.mk 13134 536870961 3700020 8270134)
      (by decide) (by decide)

/-- Claim C9 as stated is false: on a payload whose serial field starts
with a space (byte 32 at offset 5, checksum byte fixed up accordingly),
the decoder removes the leading space too, so the serial number is not the
right-trimmed-only text of bytes 5..14. -/
theorem c9_trim_counterexample :
    DeviceInfo.try_from ((type0_response.set 5 32).set 31 255)
      = some (Except.ok
        { sw_version := { major := 1, minor := 0, revision := 3 }
          serial_number := [49, 56, 51, 54, 52, 49]
          hardware_revision := 2
          product_type := ProductType.Atlas })
    ∧ utf8_decode ((((type0_response.set 5 32).set 31 255).drop 5).take 9)
      = some [32, 49, 56, 51, 54, 52, 49, 32, 32]
    ∧ ([49, 56, 51, 54, 52, 49] : List Nat)
      ≠ str_trim_end [32, 49, 56, 51, 54, 52, 49, 32, 32] := by
  decide

/-- Claim C9 amended: the serial number of a decoded record is the text of
payload bytes 5 through 13 with whitespace removed from both ends (leading
whitespace is removed as well, by str::trim). -/
theorem c9_serial_trim (bytes : List Nat) (info : DeviceInfo) (cs : List Nat)
    (hok : DeviceInfo.try_from bytes = some (Except.ok info))
    (hcs : utf8_decode ((bytes.drop 5).take 9) = some cs) :
    info.serial_number = str_trim cs := by
  unfold DeviceInfo.try_from at hok
  split at hok
  · exact Option.noConfusion hok
  split at hok
  · simp at hok
  split at hok
  · exact Option.noConfusion hok
  split at hok
  · exact Option.noConfusion hok
  split at hok
  · simp at hok
  next sc heq =>
    split at hok
    · exact Option.noConfusion hok
    · injection hok with hok
      injection hok with hok
      subst hok
      show str_trim sc = str_trim cs
      rw [heq] at hcs
      injection hcs with hcs
      rw [hcs]

theorem c9_serial_trim_witness :
    ({ sw_version := { major := 1, minor := 0, revision := 3 }
       serial_number := [89, 49, 56, 51, 54, 52, 49]
       hardware_revision := 2
       product_type := ProductType.Atlas } : DeviceInfo).serial_number
      = str_trim [89, 49, 56, 51, 54, 52, 49, 32, 32] :=
  c9_serial_trim type0_response
    { sw_version := { major := 1, minor := 0, revision := 3 }
      serial_number := [89, 49, 56, 51, 54, 52, 49]
      hardware_revision := 2
      product_type := ProductType.Atlas }
    [89, 49, 56, 51, 54, 52, 49, 32, 32] (by decide) (by decide)

/-- Claim C10: for every payload of length at least 16 the decoder performs
no out-of-bounds access and totally returns a record or an error, and 16
is minimal: there is a 15-byte payload on which the decoder panics. -/
theorem c10_no_panic_min_length :
    (∀ bytes : List Nat, 16 ≤ bytes.length → (DeviceInfo.try_from bytes).isSome = true)
    ∧ (∃ bytes : List Nat, bytes.length = 15 ∧ DeviceInfo.try_from bytes = none) := by
  constructor
  · intro bytes h
    unfold DeviceInfo.try_from
    rw [if_neg (by omega)]
    split
    · rfl
    · rw [if_neg (by omega), if_neg (by omega)]
      split
      · rfl
      · rw [if_neg (by omega)]
        rfl
  · exact ⟨List.replicate 15 0, by decide, by decide⟩

theorem c10_no_panic_min_length_witness :
    (DeviceInfo.try_from type0_response).isSome = true :=
  c10_no_panic_min_length.1 type0_response (by decide)
